import Mathlib

/-!
Verification of the swap crate's persistence, onion-routing and codec layers.

The development shallowly embeds the Rust code of `swap/src/database.rs`,
`swap/src/network/tor_transport.rs` and `swap/src/network/request_response.rs`:
byte strings are `List Nat`, the sled trees are association lists of raw byte
strings, fallible operations return `Except`, and the serde encoders
(serde_cbor for the store, serde_json for the wire codec) are modelled as
executable byte-level encoders and parsers.
-/

namespace SwapCore

/-! ## Byte-string helpers -/

/-- Bytes of an ASCII string literal. -/
def strBytes (s : String) : List Nat := s.toList.map Char.toNat

/-! ## Role-tagged swap state

The `alice`/`bob` state modules are referenced by `database.rs`
(`mod alice; mod bob;`) but their files are not part of the sources here,
so the role-state enums are modelled from the spec. -/

/-- Modelled from the spec: `EndState` outcomes for the Initiator (Alice) role
("redeemed / safely-aborted / punished"); the variant names follow the
`AliceEndState` constructors exercised by the database tests. -/
inductive AliceEndState
  | SafelyAborted
  | BtcRedeemed
  | BtcPunished
  deriving DecidableEq, Repr

/-- Modelled from the spec: `EndState` outcomes for the Responder (Bob) role. -/
inductive BobEndState
  | SafelyAborted
  | BtcRedeemed
  | BtcPunished
  deriving DecidableEq, Repr

/-- Modelled from the spec: the Initiator role's closed set of protocol-state
variants, "including a terminal `Done(EndState)` variant"; `Started` stands for
the non-terminal variants. -/
inductive Alice
  | Started
  | Done (e : AliceEndState)
  deriving DecidableEq, Repr

/-- Modelled from the spec: the Responder role's protocol-state variants. -/
inductive Bob
  | Started
  | Done (e : BobEndState)
  deriving DecidableEq, Repr

/-- The `Swap` enum of `database.rs`: a record is either an Alice or a Bob
state. -/
inductive Swap
  | Alice (a : Alice)
  | Bob (b : Bob)
  deriving DecidableEq, Repr

/-- Role tag of a record (the constructor of `Swap`). -/
inductive Role
  | alice
  | bob
  deriving DecidableEq, Repr

/-- Which role a stored record belongs to. -/
def roleOf : Swap → Role
  | .Alice _ => .alice
  | .Bob _ => .bob

/-- Errors of the store, mirroring the `anyhow` failures of `database.rs`:
role downcast failures (`NotAlice`/`NotBob`), missing keys, the
compare-and-swap conflict, and deserialization failures. -/
inductive DbError
  | notAlice
  | notBob
  | notFound
  | conflict
  | deserializeFailed
  deriving DecidableEq, Repr

/-- The `Swap::try_into_alice` downcast: `bail!(NotAlice)` on a Bob record. -/
def try_into_alice : Swap → Except DbError Alice
  | .Alice a => .ok a
  | .Bob _ => .error .notAlice

/-- The `Swap::try_into_bob` downcast: `bail!(NotBob)` on an Alice record. -/
def try_into_bob : Swap → Except DbError Bob
  | .Bob b => .ok b
  | .Alice _ => .error .notBob

instance {ε α : Type} [DecidableEq ε] [DecidableEq α] : DecidableEq (Except ε α) :=
  fun a b =>
    match a, b with
    | .ok x, .ok y => decidable_of_iff (x = y) (by simp)
    | .error x, .error y => decidable_of_iff (x = y) (by simp)
    | .ok _, .error _ => isFalse (by simp)
    | .error _, .ok _ => isFalse (by simp)

/-! ## serde_cbor encoding (`serialize` / `deserialize` in `database.rs`)

serde_cbor writes serde's externally-tagged enum representation: a unit
variant is a CBOR text string holding the variant name, a newtype variant is
a one-entry CBOR map from the variant name to the payload.  A `Uuid` key is
written with `serialize_bytes` (CBOR is not human readable), i.e. a 16-byte
CBOR byte string. -/

/-- CBOR header for a text string of length `n` (major type 3). -/
def cborTextHeader (n : Nat) : List Nat :=
  if n < 24 then [0x60 + n]
  else if n < 256 then [0x78, n]
  else if n < 65536 then [0x79, n / 256, n % 256]
  else [0x7A, n / 16777216 % 256, n / 65536 % 256, n / 256 % 256, n % 256]

/-- A CBOR text string: header followed by the byte content. -/
def cborText (s : List Nat) : List Nat := cborTextHeader s.length ++ s

/-- CBOR bytes of an `AliceEndState` (unit variant: its name as text). -/
def serializeAliceEnd : AliceEndState → List Nat
  | .SafelyAborted => cborText (strBytes "SafelyAborted")
  | .BtcRedeemed => cborText (strBytes "BtcRedeemed")
  | .BtcPunished => cborText (strBytes "BtcPunished")

/-- CBOR bytes of a `BobEndState`. -/
def serializeBobEnd : BobEndState → List Nat
  | .SafelyAborted => cborText (strBytes "SafelyAborted")
  | .BtcRedeemed => cborText (strBytes "BtcRedeemed")
  | .BtcPunished => cborText (strBytes "BtcPunished")

/-- CBOR bytes of an `Alice` state: unit variant as text, newtype variant
`Done` as the one-entry map `0xA1 "Done" <end-state>`. -/
def serializeAlice : Alice → List Nat
  | .Started => cborText (strBytes "Started")
  | .Done e => 0xA1 :: (cborText (strBytes "Done") ++ serializeAliceEnd e)

/-- CBOR bytes of a `Bob` state. -/
def serializeBob : Bob → List Nat
  | .Started => cborText (strBytes "Started")
  | .Done e => 0xA1 :: (cborText (strBytes "Done") ++ serializeBobEnd e)

/-- The store's `serialize` specialised to `Swap`: the externally-tagged
one-entry map `0xA1 <role name> <role state>`. -/
def serializeSwap : Swap → List Nat
  | .Alice a => 0xA1 :: (cborText (strBytes "Alice") ++ serializeAlice a)
  | .Bob b => 0xA1 :: (cborText (strBytes "Bob") ++ serializeBob b)

/-- A swap identifier: the 16 raw bytes of a `Uuid`. -/
def Uuid : Type := { l : List Nat // l.length = 16 }

instance : DecidableEq Uuid := fun a b =>
  decidable_of_iff (a.val = b.val) Subtype.ext_iff.symm

/-- The store's `serialize` specialised to `Uuid`: serde_cbor writes the 16
raw bytes as a CBOR byte string (header `0x50`). -/
def serializeUuid (u : Uuid) : List Nat := 0x50 :: u.val

/-- Parse a CBOR text-string header, returning the announced length. -/
def parseTextHeader : List Nat → Option (Nat × List Nat)
  | [] => none
  | b :: rest =>
    if 0x60 ≤ b ∧ b < 0x78 then some (b - 0x60, rest)
    else if b = 0x78 then
      match rest with
      | l :: r => some (l, r)
      | [] => none
    else if b = 0x79 then
      match rest with
      | h :: l :: r => some (h * 256 + l, r)
      | _ => none
    else none

/-- Parse a CBOR text string, returning its bytes and the remaining input. -/
def parseText (bs : List Nat) : Option (List Nat × List Nat) :=
  match parseTextHeader bs with
  | none => none
  | some (n, rest) =>
    if n ≤ rest.length then some (rest.take n, rest.drop n) else none

/-- Parse the CBOR encoding of an `AliceEndState`. -/
def parseAliceEnd (bs : List Nat) : Option (AliceEndState × List Nat) := do
  let (s, rest) ← parseText bs
  if s = strBytes "SafelyAborted" then some (.SafelyAborted, rest)
  else if s = strBytes "BtcRedeemed" then some (.BtcRedeemed, rest)
  else if s = strBytes "BtcPunished" then some (.BtcPunished, rest)
  else none

/-- Parse the CBOR encoding of a `BobEndState`. -/
def parseBobEnd (bs : List Nat) : Option (BobEndState × List Nat) := do
  let (s, rest) ← parseText bs
  if s = strBytes "SafelyAborted" then some (.SafelyAborted, rest)
  else if s = strBytes "BtcRedeemed" then some (.BtcRedeemed, rest)
  else if s = strBytes "BtcPunished" then some (.BtcPunished, rest)
  else none

/-- Parse the CBOR encoding of an `Alice` state. -/
def parseAlice : List Nat → Option (Alice × List Nat)
  | [] => none
  | b :: r =>
    if b = 0xA1 then do
      let (name, r2) ← parseText r
      if name = strBytes "Done" then
        let (e, r3) ← parseAliceEnd r2
        some (.Done e, r3)
      else none
    else do
      let (s, rest) ← parseText (b :: r)
      if s = strBytes "Started" then some (.Started, rest) else none

/-- Parse the CBOR encoding of a `Bob` state. -/
def parseBob : List Nat → Option (Bob × List Nat)
  | [] => none
  | b :: r =>
    if b = 0xA1 then do
      let (name, r2) ← parseText r
      if name = strBytes "Done" then
        let (e, r3) ← parseBobEnd r2
        some (.Done e, r3)
      else none
    else do
      let (s, rest) ← parseText (b :: r)
      if s = strBytes "Started" then some (.Started, rest) else none

/-- Parse the CBOR encoding of a `Swap` record. -/
def parseSwap : List Nat → Option (Swap × List Nat)
  | [] => none
  | b :: r =>
    if b = 0xA1 then do
      let (name, r2) ← parseText r
      if name = strBytes "Alice" then
        let (a, r3) ← parseAlice r2
        some (.Alice a, r3)
      else if name = strBytes "Bob" then
        let (bb, r3) ← parseBob r2
        some (.Bob bb, r3)
      else none
    else none

/-- The store's `deserialize` specialised to `Swap`: `serde_cbor::from_slice`
rejects trailing bytes, so the parse must consume the whole input. -/
def deserializeSwap (bs : List Nat) : Except DbError Swap :=
  match parseSwap bs with
  | some (s, []) => .ok s
  | _ => .error .deserializeFailed

/-- The store's `deserialize` specialised to `Uuid` (used on iterated keys). -/
def deserializeUuid (bs : List Nat) : Except DbError Uuid :=
  match bs with
  | b :: r =>
    if b = 0x50 then
      if h : r.length = 16 then .ok ⟨r, h⟩ else .error .deserializeFailed
    else .error .deserializeFailed
  | [] => .error .deserializeFailed

/-! ## The sled-backed store (`Database` in `database.rs`) -/

/-- A sled tree: an association list from raw key bytes to raw value bytes. -/
abbrev Tree : Type := List (List Nat × List Nat)

/-- Insert or replace a key's value, keeping the positions of other keys. -/
def treeInsert (k v : List Nat) : Tree → Tree
  | [] => [(k, v)]
  | (k2, v2) :: rest =>
    if k2 = k then (k, v) :: rest else (k2, v2) :: treeInsert k v rest

/-- Lookup of raw key bytes in a tree. -/
def treeGet (k : List Nat) (t : Tree) : Option (List Nat) :=
  match t with
  | [] => none
  | (k2, v2) :: rest => if k2 = k then some v2 else treeGet k rest

/-- sled's `compare_and_swap`: the write lands only if the current value
still equals `old`; otherwise the call reports the conflict. -/
def compare_and_swap (t : Tree) (k : List Nat) (old : Option (List Nat))
    (nv : List Nat) : Except DbError Tree :=
  if treeGet k t = old then .ok (treeInsert k nv t) else .error .conflict

/-- The `Database` struct: the `swaps` and `peers` trees. -/
structure Database where
  swaps : Tree
  peers : Tree
  deriving DecidableEq

/-- A peer identity, modelled by the bytes of its textual representation
(the code stores `peer_id.to_string()`). -/
abbrev PeerId : Type := List Nat

/-- `Database::insert_latest_state`: serialize the key and the record, read
the current value, then conditionally write it via compare-and-swap and
flush.  This is the sequential (single-writer) run of the code. -/
def insert_latest_state (db : Database) (i : Uuid) (s : Swap) :
    Except DbError Database :=
  let key := serializeUuid i
  let nv := serializeSwap s
  let old := treeGet key db.swaps
  match compare_and_swap db.swaps key old nv with
  | .error e => .error e
  | .ok t => .ok { db with swaps := t }

/-- `Database::get_state`: lookup and deserialize, `NotFound` if absent. -/
def get_state (db : Database) (i : Uuid) : Except DbError Swap :=
  match treeGet (serializeUuid i) db.swaps with
  | none => .error .notFound
  | some bs => deserializeSwap bs

/-- `Database::insert_peer_id`: an unconditional `insert` of the CBOR text
encoding of the peer identity, then a flush. -/
def insert_peer_id (db : Database) (i : Uuid) (p : PeerId) :
    Except DbError Database :=
  .ok { db with peers := treeInsert (serializeUuid i) (cborText p) db.peers }

/-- `Database::get_peer_id`: lookup, deserialize the stored text. -/
def get_peer_id (db : Database) (i : Uuid) : Except DbError PeerId :=
  match treeGet (serializeUuid i) db.peers with
  | none => .error .notFound
  | some bs =>
    match parseText bs with
    | some (s, []) => .ok s
    | _ => .error .deserializeFailed

/-- Rust's `Iterator::collect::<Result<Vec<_>>>`: the first error aborts the
whole enumeration, otherwise all items are kept in order. -/
def collectResults {α : Type} : List (Except DbError α) → Except DbError (List α)
  | [] => .ok []
  | x :: xs =>
    match x with
    | .error e => .error e
    | .ok a =>
      match collectResults xs with
      | .error e => .error e
      | .ok rest => .ok (a :: rest)

/-- One step of `all_swaps_iter`: deserialize key and value of an entry. -/
def decodeEntry (e : List Nat × List Nat) : Except DbError (Uuid × Swap) :=
  match deserializeUuid e.1 with
  | .error er => .error er
  | .ok u =>
    match deserializeSwap e.2 with
    | .error er => .error er
    | .ok s => .ok (u, s)

/-- One item of the `all_alice_iter` iterator: decode the entry, downcast. -/
def aliceEntry (e : List Nat × List Nat) : Except DbError (Uuid × Alice) :=
  match decodeEntry e with
  | .error er => .error er
  | .ok (u, s) =>
    match try_into_alice s with
    | .error er => .error er
    | .ok a => .ok (u, a)

/-- One item of the `all_bob_iter` iterator. -/
def bobEntry (e : List Nat × List Nat) : Except DbError (Uuid × Bob) :=
  match decodeEntry e with
  | .error er => .error er
  | .ok (u, s) =>
    match try_into_bob s with
    | .error er => .error er
    | .ok b => .ok (u, b)

/-- `Database::all_alice`: enumerate all swaps, downcasting each to Alice. -/
def all_alice (db : Database) : Except DbError (List (Uuid × Alice)) :=
  collectResults (db.swaps.map aliceEntry)

/-- `Database::all_bob`: enumerate all swaps, downcasting each to Bob. -/
def all_bob (db : Database) : Except DbError (List (Uuid × Bob)) :=
  collectResults (db.swaps.map bobEntry)

/-- The interleaving of two concurrent `insert_latest_state(i, …)` calls in
which both read the same prior stored value before either writes: both
capture `old`, the first runs its compare-and-swap, then the second runs its
compare-and-swap against the resulting tree but with the stale `old`.
Returns both call results at the `Database` level. -/
def twoWriters (db : Database) (i : Uuid) (s1 s2 : Swap) :
    Except DbError Database × Except DbError Database :=
  let key := serializeUuid i
  let old := treeGet key db.swaps
  let r1 := compare_and_swap db.swaps key old (serializeSwap s1)
  let t1 := match r1 with
    | .ok t => t
    | .error _ => db.swaps
  let r2 := compare_and_swap t1 key old (serializeSwap s2)
  let asDb : Except DbError Tree → Except DbError Database := fun r =>
    match r with
    | .ok t => .ok { db with swaps := t }
    | .error e => .error e
  (asDb r1, asDb r2)

/-! ## Tor transport (`tor_transport.rs`): onion addresses and dial routing -/

/-- The RFC 4648 base32 alphabet used by `data_encoding::BASE32`. -/
def b32Alphabet : List Char := "ABCDEFGHIJKLMNOPQRSTUVWXYZ234567".toList

/-- The eight bits of a byte, most significant first. -/
def byteBits (b : Nat) : List Nat :=
  [b / 128 % 2, b / 64 % 2, b / 32 % 2, b / 16 % 2, b / 8 % 2, b / 4 % 2,
   b / 2 % 2, b % 2]

/-- Group a bit stream into 5-bit values, zero-padding the final group. -/
def fiveBitVals : List Nat → List Nat
  | [] => []
  | [a] => [16 * a]
  | [a, b] => [16 * a + 8 * b]
  | [a, b, c] => [16 * a + 8 * b + 4 * c]
  | [a, b, c, d] => [16 * a + 8 * b + 4 * c + 2 * d]
  | a :: b :: c :: d :: e :: rest =>
    (16 * a + 8 * b + 4 * c + 2 * d + e) :: fiveBitVals rest

/-- `data_encoding::BASE32.encode`: RFC 4648 base32 with `=` padding to a
multiple of eight characters (onion hashes are 10 or 35 bytes, so in those
cases no padding character appears). -/
def base32Encode (bytes : List Nat) : String :=
  let vals := fiveBitVals (bytes.map byteBits).flatten
  let dataChars := vals.map fun v => b32Alphabet.getD v 'A'
  String.mk (dataChars ++ List.replicate ((8 - dataChars.length % 8) % 8) '=')

/-- Rust's `str::to_lowercase` on the ASCII output of the base32 encoder. -/
def toLowerStr (s : String) : String := ⟨s.data.map Char.toLower⟩

/-- Multiaddr protocol segments relevant to the transport: the two onion
generations carry a raw service hash (10 bytes for v2, 35 for v3) and a
port; the remaining segment kinds never trigger onion routing. -/
inductive Proto
  | Onion (hash : List Nat) (port : Nat)
  | Onion3 (hash : List Nat) (port : Nat)
  | Tcp (port : Nat)
  | Dns (name : String)
  | P2p (peer : String)
  | Ws
  deriving DecidableEq, Repr

/-- A multiaddr: the sequence of its protocol segments. -/
abbrev Multiaddr := List Proto

/-- Whether a segment is an onion segment (either generation). -/
def isOnion : Proto → Bool
  | .Onion _ _ => true
  | .Onion3 _ _ => true
  | _ => false

/-- The `to_onion_address` helper of `tor_transport.rs`: walk the segments
and turn the first onion segment into the textual target
`<lowercase-base32(hash)>.onion:<port>`; `none` when no onion segment
occurs. -/
def to_onion_address : Multiaddr → Option String
  | [] => none
  | p :: rest =>
    match p with
    | .Onion hash port =>
      some (toLowerStr (base32Encode hash) ++ ".onion:" ++ toString port)
    | .Onion3 hash port =>
      some (toLowerStr (base32Encode hash) ++ ".onion:" ++ toString port)
    | _ => to_onion_address rest

/-- Outcome of `TorTcpConfig::dial`: either a connection through the local
SOCKS5 proxy to a textual onion target, or the unchanged delegation of the
address to the inner TCP transport. -/
inductive DialPath
  | torDial (socksPort : Nat) (target : String)
  | innerDial (addr : Multiaddr)
  deriving DecidableEq, Repr

/-- `TorTcpConfig::dial`: route through the SOCKS5 proxy exactly when the
address holds an onion segment, otherwise fall back to the inner dial. -/
def dial (socks_port : Nat) (addr : Multiaddr) : DialPath :=
  match to_onion_address addr with
  | some dest => .torDial socks_port dest
  | none => .innerDial addr

/-! ## Wire codec (`request_response.rs`)

The payload types come from the crate's `bitcoin`, `monero` and `SwapParams`
modules, which are not among the sources here; per the spec the request
variants carry "a single numeric amount (in one of two native-currency
units)" and the response "a structured swap-parameters record", serialized
by serde_json in its externally-tagged compact form. -/

/-- Decimal digits with an explicit recursion-depth bound (the bound is
never reached when it starts at the number itself). -/
def natDigitsGo : Nat → Nat → List Nat
  | 0, n => [n]
  | f + 1, n => if n < 10 then [n] else natDigitsGo f (n / 10) ++ [n % 10]

/-- Decimal digits of a natural number, most significant first. -/
def natDigits (n : Nat) : List Nat := natDigitsGo n n

/-- ASCII bytes of the decimal representation (a JSON number). -/
def jsonNat (n : Nat) : List Nat := (natDigits n).map fun d => d + 48

/-- Modelled from the spec: the two `BobToAlice` request variants, each
carrying one numeric amount (satoshi, respectively piconero). -/
inductive BobToAlice
  | AmountsFromBtc (sats : Nat)
  | AmountsFromXmr (piconeros : Nat)
  deriving DecidableEq, Repr

/-- Modelled from the spec: the `SwapParams` record carried by the response
(the negotiated pair of amounts). -/
structure SwapParams where
  btc : Nat
  xmr : Nat
  deriving DecidableEq, Repr

/-- The `AliceToBob` response enum: the `Amounts` variant. -/
inductive AliceToBob
  | Amounts (p : SwapParams)
  deriving DecidableEq, Repr

/-- JSON literal opening the `AmountsFromBtc` object. -/
def litBtc : List Nat := strBytes "\x7b\"AmountsFromBtc\":"

/-- JSON literal opening the `AmountsFromXmr` object. -/
def litXmr : List Nat := strBytes "\x7b\"AmountsFromXmr\":"

/-- JSON literal opening the `Amounts` object and its `btc` field. -/
def litAmounts : List Nat := strBytes "\x7b\"Amounts\":\x7b\"btc\":"

/-- JSON literal introducing the `xmr` field. -/
def litXmrField : List Nat := strBytes ",\"xmr\":"

/-- A single closing brace. -/
def closeBrace : List Nat := strBytes "\x7d"

/-- Two closing braces. -/
def closeTwo : List Nat := strBytes "\x7d\x7d"

/-- `serde_json::to_vec` of a request (compact externally-tagged form). -/
def encodeBobToAlice : BobToAlice → List Nat
  | .AmountsFromBtc n => litBtc ++ jsonNat n ++ closeBrace
  | .AmountsFromXmr n => litXmr ++ jsonNat n ++ closeBrace

/-- `serde_json::to_vec` of a response. -/
def encodeAliceToBob : AliceToBob → List Nat
  | .Amounts p => litAmounts ++ jsonNat p.btc ++ litXmrField ++ jsonNat p.xmr ++ closeTwo

/-- Whether a byte is an ASCII decimal digit. -/
def isDigitByte (b : Nat) : Bool := 48 ≤ b && b ≤ 57

/-- Consume an exact literal byte sequence. -/
def parseLit (lit input : List Nat) : Option (List Nat) :=
  if lit.isPrefixOf input then some (input.drop lit.length) else none

/-- Consume a JSON number (a non-empty run of decimal digits). -/
def parseNatBytes (input : List Nat) : Option (Nat × List Nat) :=
  let digits := input.takeWhile isDigitByte
  if digits = [] then none
  else some (digits.foldl (fun a d => 10 * a + (d - 48)) 0, input.dropWhile isDigitByte)

/-- The serde_json deserializer for a request value: it consumes one complete
value and leaves any trailing input untouched (the code never calls the
deserializer's end-of-input check). -/
def parseBobToAlice (input : List Nat) : Option (BobToAlice × List Nat) :=
  match parseLit litBtc input with
  | some r =>
    match parseNatBytes r with
    | none => none
    | some (n, r2) =>
      match parseLit closeBrace r2 with
      | none => none
      | some r3 => some (.AmountsFromBtc n, r3)
  | none =>
    match parseLit litXmr input with
    | none => none
    | some r =>
      match parseNatBytes r with
      | none => none
      | some (n, r2) =>
        match parseLit closeBrace r2 with
        | none => none
        | some r3 => some (.AmountsFromXmr n, r3)

/-- The serde_json deserializer for a response value. -/
def parseAliceToBob (input : List Nat) : Option (AliceToBob × List Nat) :=
  match parseLit litAmounts input with
  | none => none
  | some r =>
    match parseNatBytes r with
    | none => none
    | some (b, r2) =>
      match parseLit litXmrField r2 with
      | none => none
      | some r3 =>
        match parseNatBytes r3 with
        | none => none
        | some (x, r4) =>
          match parseLit closeTwo r4 with
          | none => none
          | some r5 => some (.Amounts ⟨b, x⟩, r5)

/-- Varint encoding with an explicit recursion-depth bound (never reached
when it starts at the number itself). -/
def uvarintEncodeGo : Nat → Nat → List Nat
  | 0, n => [n]
  | f + 1, n => if n < 128 then [n] else (n % 128 + 128) :: uvarintEncodeGo f (n / 128)

/-- Unsigned varint encoding of the length prefix (7 bits per byte, least
significant group first, continuation bit `0x80`). -/
def uvarintEncode (n : Nat) : List Nat := uvarintEncodeGo n n

/-- Unsigned varint decoding. -/
def uvarintDecode : List Nat → Option (Nat × List Nat)
  | [] => none
  | b :: rest =>
    if b < 128 then some (b, rest)
    else
      match uvarintDecode rest with
      | none => none
      | some (m, r) => some (b - 128 + 128 * m, r)

/-- Errors of the codec reads: the over-limit rejection and everything the
serde decoder rejects (both surface as `InvalidData` io errors in the
code). -/
inductive CodecError
  | tooLarge
  | malformed
  deriving DecidableEq, Repr

/-- libp2p's `upgrade::read_one(io, max_size)`: read the varint length
prefix, reject a declared length above `max_size` as too large, then read
exactly that many payload bytes. -/
def read_one (input : List Nat) (maxSize : Nat) : Except CodecError (List Nat) :=
  match uvarintDecode input with
  | none => .error .malformed
  | some (len, rest) =>
    if maxSize < len then .error .tooLarge
    else if rest.length < len then .error .malformed
    else .ok (rest.take len)

/-- `Codec::read_request`: one frame of at most 1024 bytes, then the serde
deserializer on the payload. -/
def read_request (input : List Nat) : Except CodecError BobToAlice :=
  match read_one input 1024 with
  | .error e => .error e
  | .ok payload =>
    match parseBobToAlice payload with
    | some (m, _) => .ok m
    | none => .error .malformed

/-- `Codec::read_response`. -/
def read_response (input : List Nat) : Except CodecError AliceToBob :=
  match read_one input 1024 with
  | .error e => .error e
  | .ok payload =>
    match parseAliceToBob payload with
    | some (m, _) => .ok m
    | none => .error .malformed

/-- `Codec::write_request` via `upgrade::write_one`: the varint length
prefix followed by the serde_json bytes. -/
def write_request (m : BobToAlice) : List Nat :=
  uvarintEncode (encodeBobToAlice m).length ++ encodeBobToAlice m

/-- `Codec::write_response`. -/
def write_response (m : AliceToBob) : List Nat :=
  uvarintEncode (encodeAliceToBob m).length ++ encodeAliceToBob m

/-- A frame holding a valid encoded request followed by two trailing junk
bytes, its declared length covering the whole payload. -/
def trailingFrameExample : List Nat :=
  uvarintEncode (encodeBobToAlice (.AmountsFromBtc 42) ++ [32, 120]).length ++
    (encodeBobToAlice (.AmountsFromBtc 42) ++ [32, 120])

/-! ## Concrete fixtures used by witnesses and counterexamples -/

/-- The 35 hash bytes of the v3 onion address
`oarchy4tamydxcitaki6bc2v4leza6v35iezmu2chg2bap63sv6f2did` from the
repository's own transport test. -/
def onionHash3 : List Nat :=
  [112, 34, 35, 227, 147, 3, 48, 59, 137, 19, 2, 145, 224, 139, 85, 226,
   201, 144, 122, 187, 234, 9, 150, 83, 66, 57, 180, 16, 63, 219, 149, 124,
   93, 13, 3]

/-- The multiaddr of the repository's transport test:
`/onion3/oarchy…did:1024/p2p/12D3KooW…`. -/
def onionAddrExample : Multiaddr :=
  [.Onion3 onionHash3 1024,
   .P2p "12D3KooWPD4uHN74SHotLN7VCH7Fm8zZgaNVymYcpeF1fpD2guc9"]

/-- A multiaddr without any onion segment. -/
def plainAddrExample : Multiaddr := [.Dns "swap.example", .Tcp 9939]

/-- A concrete swap id. -/
def uuid0 : Uuid := ⟨[0, 1, 2, 3, 4, 5, 6, 7, 8, 9, 10, 11, 12, 13, 14, 15], rfl⟩

/-- A second concrete swap id. -/
def uuid1 : Uuid := ⟨[16, 1, 2, 3, 4, 5, 6, 7, 8, 9, 10, 11, 12, 13, 14, 15], rfl⟩

/-- A concrete Alice-role record. -/
def swapA : Swap := .Alice (.Done .BtcRedeemed)

/-- A concrete Bob-role record. -/
def swapB : Swap := .Bob (.Done .SafelyAborted)

/-- The freshly opened store: both trees empty. -/
def emptyDb : Database := ⟨[], []⟩

/-- The store holding exactly `swapA` under `uuid0`. -/
def dbA : Database := ⟨[(serializeUuid uuid0, serializeSwap swapA)], []⟩

/-- A concrete textual peer identity. -/
def peerA : PeerId := strBytes "12D3KooWPpSwapPeerIdA"

/-- A distinct concrete textual peer identity. -/
def peerB : PeerId := strBytes "12D3KooWPpSwapPeerIdB"

/-- A store holding one Alice record and one Bob record. -/
def dbMixed : Database :=
  ⟨[(uuid0, swapA), (uuid1, swapB)].map
      (fun e => (serializeUuid e.1, serializeSwap e.2)), []⟩

/-- A store holding Alice records only. -/
def dbAliceOnly : Database :=
  ⟨[((uuid0 : Uuid), (Alice.Done .BtcRedeemed))].map
      (fun e => (serializeUuid e.1, serializeSwap (.Alice e.2))), []⟩

/-- A store holding Bob records only. -/
def dbBobOnly : Database :=
  ⟨[((uuid0 : Uuid), (Bob.Done .SafelyAborted))].map
      (fun e => (serializeUuid e.1, serializeSwap (.Bob e.2))), []⟩

end SwapCore

namespace SwapCore

/-! ## Lemmas: the CBOR round trip and the tree operations -/

/-- Deserializing a serialized record yields the record back. -/
theorem deserializeSwap_serializeSwap (s : Swap) :
    deserializeSwap (serializeSwap s) = .ok s := by
  cases s with
  | Alice a =>
    cases a with
    | Started => decide
    | Done e => cases e <;> decide
  | Bob b =>
    cases b with
    | Started => decide
    | Done e => cases e <;> decide

/-- A freshly inserted key reads back the inserted value. -/
theorem treeGet_treeInsert_self (k v : List Nat) (t : Tree) :
    treeGet k (treeInsert k v t) = some v := by
  induction t with
  | nil => simp [treeInsert, treeGet]
  | cons e rest ih =>
    obtain ⟨k2, v2⟩ := e
    by_cases h : k2 = k
    · simp [treeInsert, treeGet, h]
    · simp [treeInsert, treeGet, h, ih]

/-- In a sequential run the conditional write always lands: the value read
just before the compare-and-swap is still the current value. -/
theorem insert_latest_state_ok (db : Database) (i : Uuid) (s : Swap) :
    insert_latest_state db i s =
      .ok { db with swaps := treeInsert (serializeUuid i) (serializeSwap s) db.swaps } := by
  simp [insert_latest_state, compare_and_swap]

/-- Reading a swap id right after its record was written returns the record. -/
theorem get_state_insert (db : Database) (i : Uuid) (s : Swap) :
    get_state { db with swaps := treeInsert (serializeUuid i) (serializeSwap s) db.swaps } i
      = .ok s := by
  simp [get_state, treeGet_treeInsert_self, deserializeSwap_serializeSwap]

/-- Claim C1: for every swap record `r` and swap id `i`, a successful
`insert_latest_state(i, r)` followed by `get_state(i)` returns a record equal
to `r`: the stored value round-trips unchanged through the compact binary
serialize/deserialize pair. -/
theorem insert_then_get_roundtrip (db db2 : Database) (i : Uuid) (r : Swap)
    (h : insert_latest_state db i r = .ok db2) :
    get_state db2 i = .ok r := by
  rw [insert_latest_state_ok] at h
  injection h with h2
  subst h2
  exact get_state_insert db i r

/-- Witness for C1 at a concrete store, id and record. -/
theorem insert_then_get_roundtrip_witness : get_state dbA uuid0 = .ok swapA :=
  insert_then_get_roundtrip emptyDb dbA uuid0 swapA (by decide)

/-- Claim C2 (amended): of two concurrent `insert_latest_state(i, …)` calls
that both read the same prior stored value, provided the serialized record
written by the first compare-and-swap differs from that prior value, exactly
one succeeds: the other fails with `Conflict`, and the stored value for `i`
afterwards equals the winner's record. -/
theorem concurrent_insert_conflict (db : Database) (i : Uuid) (s1 s2 : Swap)
    (h : some (serializeSwap s1) ≠ treeGet (serializeUuid i) db.swaps) :
    (twoWriters db i s1 s2).1 =
      .ok { db with swaps := treeInsert (serializeUuid i) (serializeSwap s1) db.swaps } ∧
    (twoWriters db i s1 s2).2 = .error .conflict ∧
    get_state { db with swaps := treeInsert (serializeUuid i) (serializeSwap s1) db.swaps } i
      = .ok s1 := by
  refine ⟨?_, ?_, get_state_insert db i s1⟩
  · simp [twoWriters, compare_and_swap]
  · simp [twoWriters, compare_and_swap, treeGet_treeInsert_self, h]

/-- Witness for C2 (amended) at a concrete store and pair of writers. -/
theorem concurrent_insert_conflict_witness :
    (twoWriters emptyDb uuid0 swapA swapB).1 = .ok dbA ∧
    (twoWriters emptyDb uuid0 swapA swapB).2 = .error .conflict ∧
    get_state dbA uuid0 = .ok swapA :=
  concurrent_insert_conflict emptyDb uuid0 swapA swapB (by decide)

/-- Claim C2 counterexample: with record `swapA` already stored under
`uuid0`, two concurrent `insert_latest_state` calls that both re-write that
same record both pass the byte-comparing compare-and-swap: the second call
returns success, not the `Conflict` error the claim requires, so it is not
the case that exactly one of the two calls succeeds. -/
theorem concurrent_insert_both_succeed_cex :
    (twoWriters dbA uuid0 swapA swapA).1 = .ok dbA ∧
    (twoWriters dbA uuid0 swapA swapA).2 = .ok dbA ∧
    (twoWriters dbA uuid0 swapA swapA).2 ≠ .error .conflict := by decide

/-- Claim C3 counterexample: `insert_peer_id` writes with a plain overwriting
`insert`; after a second insert of a different identity under the same swap
id, `get_peer_id` returns the second identity, not the first one written. -/
theorem peer_identity_overwritten_cex :
    (do
        let db1 ← insert_peer_id emptyDb uuid0 peerA
        let db2 ← insert_peer_id db1 uuid0 peerB
        get_peer_id db2 uuid0) = .ok peerB ∧ peerA ≠ peerB := by decide

/-- The CBOR text header parses back to the announced length. -/
theorem parseTextHeader_cborTextHeader (n : Nat) (h : n < 65536) (r : List Nat) :
    parseTextHeader (cborTextHeader n ++ r) = some (n, r) := by
  unfold cborTextHeader
  by_cases h1 : n < 24
  · simp only [if_pos h1, List.cons_append, List.nil_append, parseTextHeader]
    rw [if_pos (by omega : 0x60 ≤ 0x60 + n ∧ 0x60 + n < 0x78)]
    simp [Nat.add_sub_cancel_left]
  · by_cases h2 : n < 256
    · simp only [if_neg h1, if_pos h2, List.cons_append, List.nil_append, parseTextHeader]
      simp
    · simp only [if_neg h1, if_neg h2, if_pos h, List.cons_append, List.nil_append,
        parseTextHeader]
      simp
      omega

/-- A CBOR text string parses back to its content and the remaining input. -/
theorem parseText_cborText (p : List Nat) (h : p.length < 65536) (r : List Nat) :
    parseText (cborText p ++ r) = some (p, r) := by
  unfold cborText parseText
  rw [List.append_assoc, parseTextHeader_cborTextHeader p.length h]
  simp [List.take_left, List.drop_left]

/-- Reading a peer identity right after it was written returns it. -/
theorem get_peer_id_insert (db : Database) (i : Uuid) (p : PeerId)
    (h : p.length < 65536) :
    get_peer_id { db with peers := treeInsert (serializeUuid i) (cborText p) db.peers } i
      = .ok p := by
  have hp : parseText (cborText p) = some (p, []) := by
    simpa using parseText_cborText p h []
  simp [get_peer_id, treeGet_treeInsert_self, hp]

/-- Claim C3 (amended): `insert_peer_id` enforces no write-once discipline —
it unconditionally overwrites, so after a second successful
`insert_peer_id(i, p2)` the stored mapping is silently replaced and
`get_peer_id(i)` returns the most recently written identity `p2`; keeping
the mapping immutable is the caller's obligation. -/
theorem insert_peer_id_last_write_wins (db db1 db2 : Database) (i : Uuid)
    (p1 p2 : PeerId) (hlen : p2.length < 65536)
    (h1 : insert_peer_id db i p1 = .ok db1)
    (h2 : insert_peer_id db1 i p2 = .ok db2) :
    get_peer_id db2 i = .ok p2 := by
  unfold insert_peer_id at h2
  injection h2 with h2
  subst h2
  exact get_peer_id_insert db1 i p2 hlen

/-- Witness for C3 (amended) at concrete identities. -/
theorem insert_peer_id_last_write_wins_witness :
    get_peer_id ⟨[], [(serializeUuid uuid0, cborText peerB)]⟩ uuid0 = .ok peerB :=
  insert_peer_id_last_write_wins emptyDb ⟨[], [(serializeUuid uuid0, cborText peerA)]⟩
    ⟨[], [(serializeUuid uuid0, cborText peerB)]⟩ uuid0 peerA peerB (by decide)
    (by decide) (by decide)

/-- Claim C4 counterexample: a record in the Alice role stored under `uuid0`
is successfully replaced by a record in the Bob role by a later
`insert_latest_state` on the same id: the role tag of the stored record
changes across successful inserts. -/
theorem role_not_fixed_cex :
    (do
        let db1 ← insert_latest_state emptyDb uuid0 swapA
        let db2 ← insert_latest_state db1 uuid0 swapB
        get_state db2 uuid0) = .ok swapB ∧ roleOf swapA ≠ roleOf swapB := by decide

/-- Claim C4 (amended): `insert_latest_state` performs no role check — after
a record `s1` has been stored for `i`, an insert of any record `s2` succeeds
whatever its role, and the role of the record then stored under `i` is
`s2`'s role; a fixed role per swap id is a caller obligation, not enforced
by the store. -/
theorem insert_latest_state_no_role_check (db db1 : Database) (i : Uuid)
    (s1 s2 : Swap)
    (h1 : insert_latest_state db i s1 = .ok db1) :
    insert_latest_state db1 i s2 =
      .ok { db1 with swaps := treeInsert (serializeUuid i) (serializeSwap s2) db1.swaps } ∧
    (get_state { db1 with swaps := treeInsert (serializeUuid i) (serializeSwap s2) db1.swaps } i).map roleOf
      = .ok (roleOf s2) := by
  refine ⟨insert_latest_state_ok db1 i s2, ?_⟩
  rw [get_state_insert]
  rfl

/-- Witness for C4 (amended): a Bob record lands over an Alice record. -/
theorem insert_latest_state_no_role_check_witness :
    insert_latest_state dbA uuid0 swapB =
      .ok { dbA with swaps := treeInsert (serializeUuid uuid0) (serializeSwap swapB) dbA.swaps } ∧
    (get_state { dbA with swaps := treeInsert (serializeUuid uuid0) (serializeSwap swapB) dbA.swaps } uuid0).map roleOf
      = .ok (roleOf swapB) :=
  insert_latest_state_no_role_check emptyDb dbA uuid0 swapA swapB (by decide)

/-- Deserializing a serialized swap id yields the id back. -/
theorem deserializeUuid_serializeUuid (u : Uuid) :
    deserializeUuid (serializeUuid u) = .ok u := by
  obtain ⟨l, hl⟩ := u
  simp [deserializeUuid, serializeUuid, hl]

/-- A well-formed Alice entry downcasts to its Alice state. -/
theorem aliceEntry_alice (u : Uuid) (a : Alice) :
    aliceEntry (serializeUuid u, serializeSwap (.Alice a)) = .ok (u, a) := by
  simp [aliceEntry, decodeEntry, deserializeUuid_serializeUuid,
    deserializeSwap_serializeSwap, try_into_alice]

/-- A well-formed Bob entry fails the Alice downcast with `NotAlice`. -/
theorem aliceEntry_bob (u : Uuid) (b : Bob) :
    aliceEntry (serializeUuid u, serializeSwap (.Bob b)) = .error .notAlice := by
  simp [aliceEntry, decodeEntry, deserializeUuid_serializeUuid,
    deserializeSwap_serializeSwap, try_into_alice]

/-- A well-formed Bob entry downcasts to its Bob state. -/
theorem bobEntry_bob (u : Uuid) (b : Bob) :
    bobEntry (serializeUuid u, serializeSwap (.Bob b)) = .ok (u, b) := by
  simp [bobEntry, decodeEntry, deserializeUuid_serializeUuid,
    deserializeSwap_serializeSwap, try_into_bob]

/-- A well-formed Alice entry fails the Bob downcast with `NotBob`. -/
theorem bobEntry_alice (u : Uuid) (a : Alice) :
    bobEntry (serializeUuid u, serializeSwap (.Alice a)) = .error .notBob := by
  simp [bobEntry, decodeEntry, deserializeUuid_serializeUuid,
    deserializeSwap_serializeSwap, try_into_bob]

/-- Enumerating as Alice over well-formed entries errors with `NotAlice` as
soon as any entry holds a Bob record. -/
theorem collect_alice_mixed (entries : List (Uuid × Swap))
    (hmix : ∃ e ∈ entries, roleOf e.2 = .bob) :
    collectResults
        ((entries.map (fun e => (serializeUuid e.1, serializeSwap e.2))).map aliceEntry)
      = .error .notAlice := by
  rw [List.map_map]
  induction entries with
  | nil => simp at hmix
  | cons e rest ih =>
    obtain ⟨u, s⟩ := e
    cases s with
    | Bob b => simp [collectResults, aliceEntry_bob]
    | Alice a =>
      obtain ⟨f, hf, hrole⟩ := hmix
      rcases List.mem_cons.mp hf with hhead | htail
      · subst hhead
        simp [roleOf] at hrole
      · simp [collectResults, aliceEntry_alice, ih ⟨f, htail, hrole⟩]

/-- Enumerating as Bob over well-formed entries errors with `NotBob` as soon
as any entry holds an Alice record. -/
theorem collect_bob_mixed (entries : List (Uuid × Swap))
    (hmix : ∃ e ∈ entries, roleOf e.2 = .alice) :
    collectResults
        ((entries.map (fun e => (serializeUuid e.1, serializeSwap e.2))).map bobEntry)
      = .error .notBob := by
  rw [List.map_map]
  induction entries with
  | nil => simp at hmix
  | cons e rest ih =>
    obtain ⟨u, s⟩ := e
    cases s with
    | Alice a => simp [collectResults, bobEntry_alice]
    | Bob b =>
      obtain ⟨f, hf, hrole⟩ := hmix
      rcases List.mem_cons.mp hf with hhead | htail
      · subst hhead
        simp [roleOf] at hrole
      · simp [collectResults, bobEntry_bob, ih ⟨f, htail, hrole⟩]

/-- Enumerating as Alice over Alice-only entries returns them all in order. -/
theorem collect_alice_ok (entries : List (Uuid × Alice)) :
    collectResults
        ((entries.map (fun e => (serializeUuid e.1, serializeSwap (.Alice e.2)))).map aliceEntry)
      = .ok entries := by
  rw [List.map_map]
  induction entries with
  | nil => simp [collectResults]
  | cons e rest ih =>
    obtain ⟨u, a⟩ := e
    simp [collectResults, aliceEntry_alice, ih]

/-- Enumerating as Bob over Bob-only entries returns them all in order. -/
theorem collect_bob_ok (entries : List (Uuid × Bob)) :
    collectResults
        ((entries.map (fun e => (serializeUuid e.1, serializeSwap (.Bob e.2)))).map bobEntry)
      = .ok entries := by
  rw [List.map_map]
  induction entries with
  | nil => simp [collectResults]
  | cons e rest ih =>
    obtain ⟨u, b⟩ := e
    simp [collectResults, bobEntry_bob, ih]

/-- Claim C5: for every store contents, the all-records-of-one-role
enumeration (`all_alice` / `all_bob`) fails with the role-mismatch error
whenever at least one stored record belongs to the other role — it never
silently drops the other role's records — and when all stored records are of
the requested role it returns them all, each paired with its swap id. -/
theorem all_of_role_strict :
    (∀ (entries : List (Uuid × Swap)) (db : Database),
        db.swaps = entries.map (fun e => (serializeUuid e.1, serializeSwap e.2)) →
        ((∃ e ∈ entries, roleOf e.2 = .bob) → all_alice db = .error .notAlice) ∧
        ((∃ e ∈ entries, roleOf e.2 = .alice) → all_bob db = .error .notBob)) ∧
    (∀ (entries : List (Uuid × Alice)) (db : Database),
        db.swaps = entries.map (fun e => (serializeUuid e.1, serializeSwap (.Alice e.2))) →
        all_alice db = .ok entries) ∧
    (∀ (entries : List (Uuid × Bob)) (db : Database),
        db.swaps = entries.map (fun e => (serializeUuid e.1, serializeSwap (.Bob e.2))) →
        all_bob db = .ok entries) := by
  refine ⟨fun entries db hdb => ⟨fun hmix => ?_, fun hmix => ?_⟩,
    fun entries db hdb => ?_, fun entries db hdb => ?_⟩
  · rw [all_alice, hdb]
    exact collect_alice_mixed entries hmix
  · rw [all_bob, hdb]
    exact collect_bob_mixed entries hmix
  · rw [all_alice, hdb]
    exact collect_alice_ok entries
  · rw [all_bob, hdb]
    exact collect_bob_ok entries

/-- Witness for C5 at concrete mixed-role and single-role stores. -/
theorem all_of_role_strict_witness :
    (all_alice dbMixed = .error .notAlice ∧ all_bob dbMixed = .error .notBob) ∧
    all_alice dbAliceOnly = .ok [(uuid0, .Done .BtcRedeemed)] ∧
    all_bob dbBobOnly = .ok [(uuid0, .Done .SafelyAborted)] :=
  ⟨⟨(all_of_role_strict.1 [(uuid0, swapA), (uuid1, swapB)] dbMixed rfl).1
      ⟨(uuid1, swapB), by decide, rfl⟩,
    (all_of_role_strict.1 [(uuid0, swapA), (uuid1, swapB)] dbMixed rfl).2
      ⟨(uuid0, swapA), by decide, rfl⟩⟩,
   all_of_role_strict.2.1 [(uuid0, .Done .BtcRedeemed)] dbAliceOnly rfl,
   all_of_role_strict.2.2 [(uuid0, .Done .SafelyAborted)] dbBobOnly rfl⟩

/-- An address with no onion segment translates to no onion target. -/
theorem to_onion_address_eq_none (ma : Multiaddr)
    (h : ∀ p ∈ ma, isOnion p = false) :
    to_onion_address ma = none := by
  induction ma with
  | nil => rfl
  | cons p rest ih =>
    have hp := h p (by simp)
    cases p with
    | Onion hash port => simp [isOnion] at hp
    | Onion3 hash port => simp [isOnion] at hp
    | Tcp port => exact ih fun q hq => h q (by simp [hq])
    | Dns name => exact ih fun q hq => h q (by simp [hq])
    | P2p peer => exact ih fun q hq => h q (by simp [hq])
    | Ws => exact ih fun q hq => h q (by simp [hq])

/-- The translation of an address whose first onion segment is a v3 segment
is built from exactly that segment's hash and port. -/
theorem to_onion_address_first_onion3 (pre : Multiaddr) (hash : List Nat)
    (port : Nat) (rest : Multiaddr) (hpre : ∀ p ∈ pre, isOnion p = false) :
    to_onion_address (pre ++ .Onion3 hash port :: rest)
      = some (toLowerStr (base32Encode hash) ++ ".onion:" ++ toString port) := by
  induction pre with
  | nil => rfl
  | cons p pre2 ih =>
    have hp := hpre p (by simp)
    cases p with
    | Onion h2 p2 => simp [isOnion] at hp
    | Onion3 h2 p2 => simp [isOnion] at hp
    | Tcp p2 => exact ih fun q hq => hpre q (by simp [hq])
    | Dns n2 => exact ih fun q hq => hpre q (by simp [hq])
    | P2p n2 => exact ih fun q hq => hpre q (by simp [hq])
    | Ws => exact ih fun q hq => hpre q (by simp [hq])

/-- Claim C6: for a multiaddress whose (first) onion segment is an onion-v3
segment, the translation yields exactly
`<lowercase-base32(hash)>.onion:<port>` built from that segment's service
hash and port; on the repository test input
`/onion3/oarchy…did:1024/p2p/…` it yields exactly
`oarchy4tamydxcitaki6bc2v4leza6v35iezmu2chg2bap63sv6f2did.onion:1024`; an
address with no onion segment yields no target. -/
theorem to_onion_address_spec :
    (∀ (pre : Multiaddr) (hash : List Nat) (port : Nat) (rest : Multiaddr),
        (∀ p ∈ pre, isOnion p = false) →
        to_onion_address (pre ++ .Onion3 hash port :: rest)
          = some (toLowerStr (base32Encode hash) ++ ".onion:" ++ toString port)) ∧
    to_onion_address onionAddrExample
      = some "oarchy4tamydxcitaki6bc2v4leza6v35iezmu2chg2bap63sv6f2did.onion:1024" ∧
    (∀ ma : Multiaddr, (∀ p ∈ ma, isOnion p = false) → to_onion_address ma = none) :=
  ⟨to_onion_address_first_onion3, by decide, to_onion_address_eq_none⟩

/-- Witness for C6 at a concrete prefixed onion address and a concrete
onion-free address. -/
theorem to_onion_address_spec_witness :
    to_onion_address ([Proto.Tcp 9939] ++ .Onion3 onionHash3 1024 :: [])
      = some (toLowerStr (base32Encode onionHash3) ++ ".onion:" ++ toString 1024) ∧
    to_onion_address plainAddrExample = none :=
  ⟨to_onion_address_spec.1 [.Tcp 9939] onionHash3 1024 [] (by decide),
   to_onion_address_spec.2.2 plainAddrExample (by decide)⟩

/-- The translation yields no target exactly on onion-free addresses. -/
theorem to_onion_address_none_iff (ma : Multiaddr) :
    to_onion_address ma = none ↔ ma.any isOnion = false := by
  induction ma with
  | nil => simp [to_onion_address]
  | cons p rest ih =>
    cases p with
    | Onion hash port => simp [to_onion_address, isOnion]
    | Onion3 hash port => simp [to_onion_address, isOnion]
    | Tcp port => simpa [to_onion_address, isOnion] using ih
    | Dns name => simpa [to_onion_address, isOnion] using ih
    | P2p peer => simpa [to_onion_address, isOnion] using ih
    | Ws => simpa [to_onion_address, isOnion] using ih

/-- Claim C7: the Tor-routed dialer takes the SOCKS5-proxy path if and only
if the address contains an onion segment: an onion-bearing address is
dialled through the proxy at the configured port (and never reaches the
inner transport), while an onion-free address is delegated unchanged to the
inner transport's dial (and never invokes the proxy). -/
theorem dial_routing (sp : Nat) (addr : Multiaddr) :
    (addr.any isOnion = true →
      dial sp addr = .torDial sp ((to_onion_address addr).getD "")) ∧
    (addr.any isOnion = false → dial sp addr = .innerDial addr) := by
  constructor
  · intro hany
    rcases hsome : to_onion_address addr with _ | t
    · rw [(to_onion_address_none_iff addr).mp hsome] at hany
      exact absurd hany (by simp)
    · simp [dial, hsome]
  · intro hnone
    rw [dial, (to_onion_address_none_iff addr).mpr hnone]

/-- Witness for C7 at a concrete onion address and a concrete plain
address. -/
theorem dial_routing_witness :
    dial 9050 onionAddrExample
      = .torDial 9050 ((to_onion_address onionAddrExample).getD "") ∧
    dial 9050 plainAddrExample = .innerDial plainAddrExample :=
  ⟨(dial_routing 9050 onionAddrExample).1 (by decide),
   (dial_routing 9050 plainAddrExample).2 (by decide)⟩

/-- The digit recursion is insensitive to the fuel as long as it suffices. -/
theorem natDigitsGo_fuel (f1 : Nat) : ∀ (f2 n : Nat), n ≤ f1 → n ≤ f2 →
    natDigitsGo f1 n = natDigitsGo f2 n := by
  induction f1 with
  | zero =>
    intro f2 n h1 _
    have hn : n = 0 := by omega
    subst hn
    cases f2 <;> simp [natDigitsGo]
  | succ f ih =>
    intro f2 n h1 h2
    cases f2 with
    | zero =>
      have hn : n = 0 := by omega
      subst hn
      simp [natDigitsGo]
    | succ g =>
      simp only [natDigitsGo]
      by_cases hn : n < 10
      · simp [hn]
      · have hd : n / 10 < n := Nat.div_lt_self (by omega) (by omega)
        rw [if_neg hn, if_neg hn, ih g (n / 10) (by omega) (by omega)]

/-- The recursive unfolding of `natDigits`. -/
theorem natDigits_eq (n : Nat) :
    natDigits n = if n < 10 then [n] else natDigits (n / 10) ++ [n % 10] := by
  cases n with
  | zero => simp [natDigits, natDigitsGo]
  | succ f =>
    show natDigitsGo (f + 1) (f + 1) = _
    rw [natDigitsGo]
    by_cases hn : f + 1 < 10
    · simp [hn]
    · have hd : (f + 1) / 10 < f + 1 := Nat.div_lt_self (by omega) (by omega)
      rw [if_neg hn, if_neg hn,
        natDigitsGo_fuel f ((f + 1) / 10) ((f + 1) / 10) (by omega) (by omega)]
      rfl

/-- The varint recursion is insensitive to the fuel as long as it suffices. -/
theorem uvarintEncodeGo_fuel (f1 : Nat) : ∀ (f2 n : Nat), n ≤ f1 → n ≤ f2 →
    uvarintEncodeGo f1 n = uvarintEncodeGo f2 n := by
  induction f1 with
  | zero =>
    intro f2 n h1 _
    have hn : n = 0 := by omega
    subst hn
    cases f2 <;> simp [uvarintEncodeGo]
  | succ f ih =>
    intro f2 n h1 h2
    cases f2 with
    | zero =>
      have hn : n = 0 := by omega
      subst hn
      simp [uvarintEncodeGo]
    | succ g =>
      simp only [uvarintEncodeGo]
      by_cases hn : n < 128
      · simp [hn]
      · have hd : n / 128 < n := Nat.div_lt_self (by omega) (by omega)
        rw [if_neg hn, if_neg hn, ih g (n / 128) (by omega) (by omega)]

/-- The recursive unfolding of `uvarintEncode`. -/
theorem uvarintEncode_eq (n : Nat) :
    uvarintEncode n
      = if n < 128 then [n] else (n % 128 + 128) :: uvarintEncode (n / 128) := by
  cases n with
  | zero => simp [uvarintEncode, uvarintEncodeGo]
  | succ f =>
    show uvarintEncodeGo (f + 1) (f + 1) = _
    rw [uvarintEncodeGo]
    by_cases hn : f + 1 < 128
    · simp [hn]
    · have hd : (f + 1) / 128 < f + 1 := Nat.div_lt_self (by omega) (by omega)
      rw [if_neg hn, if_neg hn,
        uvarintEncodeGo_fuel f ((f + 1) / 128) ((f + 1) / 128) (by omega) (by omega)]
      rfl

/-- Decoding a varint-encoded number recovers it and the remaining input. -/
theorem uvarintDecode_encode (n : Nat) (rest : List Nat) :
    uvarintDecode (uvarintEncode n ++ rest) = some (n, rest) := by
  induction n using Nat.strong_induction_on with
  | _ n ih =>
    rw [uvarintEncode_eq]
    by_cases h : n < 128
    · simp [h, uvarintDecode]
    · rw [if_neg h, List.cons_append, uvarintDecode]
      rw [if_neg (by omega)]
      rw [ih (n / 128) (Nat.div_lt_self (by omega) (by omega))]
      show some (n % 128 + 128 - 128 + 128 * (n / 128), rest) = some (n, rest)
      rw [Nat.add_sub_cancel, Nat.mod_add_div n 128]

/-- Every decimal digit produced by `natDigits` is below ten. -/
theorem natDigits_lt_ten (n : Nat) : ∀ d ∈ natDigits n, d < 10 := by
  induction n using Nat.strong_induction_on with
  | _ n ih =>
    rw [natDigits_eq]
    by_cases h : n < 10
    · simpa [h] using h
    · rw [if_neg h]
      intro d hd
      rcases List.mem_append.mp hd with hmem | hmem
      · exact ih (n / 10) (Nat.div_lt_self (by omega) (by omega)) d hmem
      · simp at hmem
        omega

/-- The digit list of `natDigits` is never empty. -/
theorem natDigits_ne_nil (n : Nat) : natDigits n ≠ [] := by
  rw [natDigits_eq]
  by_cases h : n < 10
  · simp [h]
  · rw [if_neg h]
    simp

/-- Folding the decimal digits back up recovers the number. -/
theorem natDigits_val (n : Nat) :
    (natDigits n).foldl (fun a d => 10 * a + d) 0 = n := by
  induction n using Nat.strong_induction_on with
  | _ n ih =>
    rw [natDigits_eq]
    by_cases h : n < 10
    · simp [h]
    · rw [if_neg h, List.foldl_append,
        ih (n / 10) (Nat.div_lt_self (by omega) (by omega))]
      simp
      omega

/-- The ASCII-offset fold agrees with the digit fold. -/
theorem foldl_map_ascii (l : List Nat) (acc : Nat) :
    (l.map fun d => d + 48).foldl (fun a d => 10 * a + (d - 48)) acc
      = l.foldl (fun a d => 10 * a + d) acc := by
  induction l generalizing acc with
  | nil => rfl
  | cons d t ih => simp [ih]

/-- takeWhile and dropWhile split a list of satisfying elements followed by
a failing element exactly at that element. -/
theorem takeWhile_dropWhile_split (p : Nat → Bool) (l : List Nat)
    (hl : ∀ x ∈ l, p x = true) (b : Nat) (hb : p b = false) (r : List Nat) :
    (l ++ b :: r).takeWhile p = l ∧ (l ++ b :: r).dropWhile p = b :: r := by
  induction l with
  | nil => simp [List.takeWhile, List.dropWhile, hb]
  | cons a t ih =>
    have ha : p a = true := hl a (by simp)
    have ht := ih fun x hx => hl x (by simp [hx])
    simp [List.takeWhile, List.dropWhile, ha, ht.1, ht.2]

/-- Parsing a JSON number at the head of the input consumes exactly the
digits of the written number. -/
theorem parseNatBytes_jsonNat (n : Nat) (b : Nat) (hb : isDigitByte b = false)
    (r : List Nat) :
    parseNatBytes (jsonNat n ++ b :: r) = some (n, b :: r) := by
  have hdig : ∀ x ∈ jsonNat n, isDigitByte x = true := by
    intro x hx
    obtain ⟨d, hd, hdx⟩ := List.mem_map.mp hx
    have := natDigits_lt_ten n d hd
    subst hdx
    simp [isDigitByte]
    omega
  obtain ⟨htake, hdrop⟩ :=
    takeWhile_dropWhile_split isDigitByte (jsonNat n) hdig b hb r
  have hne : jsonNat n ≠ [] := by
    intro hnil
    exact natDigits_ne_nil n (List.map_eq_nil_iff.mp hnil)
  rw [parseNatBytes]
  simp only [htake, hdrop, if_neg hne]
  rw [jsonNat, foldl_map_ascii, natDigits_val]

/-- A literal always consumes itself at the head of the input. -/
theorem isPrefixOf_self_append (l r : List Nat) : l.isPrefixOf (l ++ r) = true := by
  induction l with
  | nil => cases r <;> rfl
  | cons a t ih => simpa [List.isPrefixOf] using ih

/-- Consuming a literal that heads the input leaves exactly the tail. -/
theorem parseLit_append (l r : List Nat) : parseLit l (l ++ r) = some r := by
  rw [parseLit, if_pos (isPrefixOf_self_append l r), List.drop_left]

/-- A successful fixed-length prefix match pins down the head of the input. -/
theorem eq_of_isPrefixOf_of_length (l1 : List Nat) :
    ∀ (l2 r : List Nat), l1.length = l2.length →
      l1.isPrefixOf (l2 ++ r) = true → l1 = l2 := by
  induction l1 with
  | nil =>
    intro l2 r hlen _
    simpa using (List.length_eq_zero.mp hlen.symm).symm
  | cons a t ih =>
    intro l2 r hlen hp
    cases l2 with
    | nil => simp at hlen
    | cons b t2 =>
      simp only [List.cons_append, List.isPrefixOf, Bool.and_eq_true,
        beq_iff_eq] at hp
      simp only [List.length_cons, Nat.add_right_cancel_iff] at hlen
      rw [hp.1, ih t2 r hlen hp.2]

/-- Two distinct literals of equal length never match the same input head. -/
theorem parseLit_of_ne (l1 l2 r : List Nat) (hlen : l1.length = l2.length)
    (hne : l1 ≠ l2) : parseLit l1 (l2 ++ r) = none := by
  rw [parseLit, if_neg]
  intro hp
  exact hne (eq_of_isPrefixOf_of_length l1 l2 r hlen hp)

/-- The request deserializer recovers an encoded request and leaves any
trailing input untouched. -/
theorem parseBobToAlice_encode (m : BobToAlice) (r : List Nat) :
    parseBobToAlice (encodeBobToAlice m ++ r) = some (m, r) := by
  cases m with
  | AmountsFromBtc n =>
    have h1 : parseLit litBtc (encodeBobToAlice (.AmountsFromBtc n) ++ r)
        = some (jsonNat n ++ (closeBrace ++ r)) := by
      rw [encodeBobToAlice, List.append_assoc, List.append_assoc, parseLit_append]
    have h2 : parseNatBytes (jsonNat n ++ (closeBrace ++ r))
        = some (n, closeBrace ++ r) :=
      parseNatBytes_jsonNat n 125 (by decide) r
    have h3 : parseLit closeBrace (closeBrace ++ r) = some r := parseLit_append _ _
    simp only [parseBobToAlice, h1, h2, h3]
  | AmountsFromXmr n =>
    have h0 : parseLit litBtc (encodeBobToAlice (.AmountsFromXmr n) ++ r) = none := by
      rw [encodeBobToAlice, List.append_assoc, List.append_assoc]
      exact parseLit_of_ne litBtc litXmr _ (by decide) (by decide)
    have h1 : parseLit litXmr (encodeBobToAlice (.AmountsFromXmr n) ++ r)
        = some (jsonNat n ++ (closeBrace ++ r)) := by
      rw [encodeBobToAlice, List.append_assoc, List.append_assoc, parseLit_append]
    have h2 : parseNatBytes (jsonNat n ++ (closeBrace ++ r))
        = some (n, closeBrace ++ r) :=
      parseNatBytes_jsonNat n 125 (by decide) r
    have h3 : parseLit closeBrace (closeBrace ++ r) = some r := parseLit_append _ _
    simp only [parseBobToAlice, h0, h1, h2, h3]

/-- The response deserializer recovers an encoded response and leaves any
trailing input untouched. -/
theorem parseAliceToBob_encode (m : AliceToBob) (r : List Nat) :
    parseAliceToBob (encodeAliceToBob m ++ r) = some (m, r) := by
  cases m with
  | Amounts p =>
    obtain ⟨b, x⟩ := p
    have h1 : parseLit litAmounts (encodeAliceToBob (.Amounts ⟨b, x⟩) ++ r)
        = some (jsonNat b ++ (litXmrField ++ (jsonNat x ++ (closeTwo ++ r)))) := by
      rw [encodeAliceToBob, List.append_assoc, List.append_assoc,
        List.append_assoc, List.append_assoc, parseLit_append]
    have h2 : parseNatBytes (jsonNat b ++ (litXmrField ++ (jsonNat x ++ (closeTwo ++ r))))
        = some (b, litXmrField ++ (jsonNat x ++ (closeTwo ++ r))) :=
      parseNatBytes_jsonNat b 44 (by decide) _
    have h3 : parseLit litXmrField (litXmrField ++ (jsonNat x ++ (closeTwo ++ r)))
        = some (jsonNat x ++ (closeTwo ++ r)) := parseLit_append _ _
    have h4 : parseNatBytes (jsonNat x ++ (closeTwo ++ r))
        = some (x, closeTwo ++ r) :=
      parseNatBytes_jsonNat x 125 (by decide) _
    have h5 : parseLit closeTwo (closeTwo ++ r) = some r := parseLit_append _ _
    simp only [parseAliceToBob, h1, h2, h3, h4, h5]

/-- Claim C8: the codec's read operations reject any frame whose declared
payload length exceeds 1024 bytes with a decode error (the too-large
rejection), never returning a partially decoded value, and a read can only
succeed on a single length-prefixed frame whose declared length is at most
1024 bytes. -/
theorem read_rejects_oversized :
    (∀ (n : Nat) (payload : List Nat), 1024 < n →
        read_request (uvarintEncode n ++ payload) = .error .tooLarge) ∧
    (∀ (n : Nat) (payload : List Nat), 1024 < n →
        read_response (uvarintEncode n ++ payload) = .error .tooLarge) ∧
    (∀ (input : List Nat) (m : BobToAlice) (n : Nat) (rest : List Nat),
        read_request input = .ok m → uvarintDecode input = some (n, rest) →
        n ≤ 1024) ∧
    (∀ (input : List Nat) (m : AliceToBob) (n : Nat) (rest : List Nat),
        read_response input = .ok m → uvarintDecode input = some (n, rest) →
        n ≤ 1024) := by
  refine ⟨fun n payload hn => ?_, fun n payload hn => ?_,
    fun input m n rest hok hdec => ?_, fun input m n rest hok hdec => ?_⟩
  · simp only [read_request, read_one, uvarintDecode_encode, if_pos hn]
  · simp only [read_response, read_one, uvarintDecode_encode, if_pos hn]
  · by_contra hgt
    simp only [read_request, read_one, hdec,
      if_pos (show 1024 < n by omega)] at hok
    exact Except.noConfusion hok
  · by_contra hgt
    simp only [read_response, read_one, hdec,
      if_pos (show 1024 < n by omega)] at hok
    exact Except.noConfusion hok

/-- Witness for C8: a frame declaring 1025 payload bytes is rejected on both
read paths, and concrete successful reads have in-bound declared lengths. -/
theorem read_rejects_oversized_witness :
    read_request (uvarintEncode 1025 ++ List.replicate 1025 0) = .error .tooLarge ∧
    read_response (uvarintEncode 1025 ++ List.replicate 1025 0) = .error .tooLarge ∧
    (21 : Nat) ≤ 1024 ∧ (29 : Nat) ≤ 1024 :=
  ⟨read_rejects_oversized.1 1025 (List.replicate 1025 0) (by omega),
   read_rejects_oversized.2.1 1025 (List.replicate 1025 0) (by omega),
   read_rejects_oversized.2.2.1 (write_request (.AmountsFromBtc 42))
     (.AmountsFromBtc 42) 21 (encodeBobToAlice (.AmountsFromBtc 42))
     (by decide) (by decide),
   read_rejects_oversized.2.2.2 (write_response (.Amounts ⟨7, 9⟩))
     (.Amounts ⟨7, 9⟩) 29 (encodeAliceToBob (.Amounts ⟨7, 9⟩))
     (by decide) (by decide)⟩

/-- Claim C9: for every message whose encoding fits in the 1024-byte frame,
the bytes produced by the writer deserialize on the reader to the identical
message — write/read symmetry in both directions, with no transformation of
the payload at this layer. -/
theorem write_read_symmetry :
    (∀ req : BobToAlice, (encodeBobToAlice req).length ≤ 1024 →
        read_request (write_request req) = .ok req) ∧
    (∀ res : AliceToBob, (encodeAliceToBob res).length ≤ 1024 →
        read_response (write_response res) = .ok res) := by
  constructor
  · intro req hlen
    have hparse : parseBobToAlice (encodeBobToAlice req) = some (req, []) := by
      have h := parseBobToAlice_encode req []
      rwa [List.append_nil] at h
    simp only [write_request, read_request, read_one, uvarintDecode_encode,
      if_neg (show ¬ 1024 < (encodeBobToAlice req).length from by omega),
      if_neg (show ¬ (encodeBobToAlice req).length < (encodeBobToAlice req).length
        from by omega),
      List.take_length, hparse]
  · intro res hlen
    have hparse : parseAliceToBob (encodeAliceToBob res) = some (res, []) := by
      have h := parseAliceToBob_encode res []
      rwa [List.append_nil] at h
    simp only [write_response, read_response, read_one, uvarintDecode_encode,
      if_neg (show ¬ 1024 < (encodeAliceToBob res).length from by omega),
      if_neg (show ¬ (encodeAliceToBob res).length < (encodeAliceToBob res).length
        from by omega),
      List.take_length, hparse]

/-- Witness for C9 at concrete request and response messages. -/
theorem write_read_symmetry_witness :
    read_request (write_request (.AmountsFromBtc 42)) = .ok (.AmountsFromBtc 42) ∧
    read_response (write_response (.Amounts ⟨7, 9⟩)) = .ok (.Amounts ⟨7, 9⟩) :=
  ⟨write_read_symmetry.1 (.AmountsFromBtc 42) (by decide),
   write_read_symmetry.2 (.Amounts ⟨7, 9⟩) (by decide)⟩

/-- Claim C10: a frame at or under the limit consisting of a valid encoded
request followed by trailing junk bytes is not the writer's output, yet the
reader decodes it successfully to that request: the deserializer does not
require the payload to end after the first complete value. -/
theorem read_request_accepts_trailing :
    read_request trailingFrameExample = .ok (.AmountsFromBtc 42) ∧
    trailingFrameExample ≠ write_request (.AmountsFromBtc 42) ∧
    (encodeBobToAlice (.AmountsFromBtc 42) ++ [32, 120]).length ≤ 1024 := by decide

end SwapCore
